import Mathlib

/-!
Verification of the liquid-metal height-field simulator (src/main.cpp).

Modelling conventions for the shallow embedding:

* C++ `float` arithmetic is modelled by the real numbers ℝ (idealized
  real-number semantics of the floating-point expressions in the source).
* The flat `std::vector<float>` grids, indexed by `idx(x,y) = y*width + x`,
  are modelled as functions `ℤ → ℤ → ℝ`. Every write in the source is
  guarded to an in-bounds cell, so the flat layout and the coordinate view
  agree; out-of-grid coordinates simply keep their (never-written) value.
* Each sequential `for` loop is embedded as a left fold over the exact list
  of loop iterations, in source iteration order (outer `y`/`j` loop, inner
  `x`/`i` loop), each iteration performing a single-cell store. This keeps
  the source's write/read ordering observable in the model.
* `std::exp`, `std::sqrt` and `powf` are modelled by `Real.exp`, `Real.sqrt`
  and real `rpow`; the `(unsigned char)` cast of a float is modelled as
  floor (truncation; all cast operands proved nonnegative here) followed by
  reduction mod 256.
-/

namespace LiquidMetal

/-- Pointwise store: the grid function `f` updated to hold `a` at cell
`(x, y)` and unchanged elsewhere (one array store `f[idx(x,y)] = a`). -/
def updf {V : Type} (f : ℤ → ℤ → V) (x y : ℤ) (a : V) : ℤ → ℤ → V :=
  fun p q => if p = x ∧ q = y then a else f p q

theorem updf_same {V : Type} (f : ℤ → ℤ → V) (x y : ℤ) (a : V) :
    updf f x y a x y = a := by
  simp [updf]

theorem updf_other {V : Type} (f : ℤ → ℤ → V) (x y : ℤ) (a : V) {p q : ℤ}
    (h : ¬(p = x ∧ q = y)) : updf f x y a p q = f p q := by
  simp [updf, h]

/-- Integer interval `[lo, hi]` as a list in increasing order: the set of
values taken by the loop counter of `for (v = lo; v <= hi; ++v)`. -/
def intRange (lo hi : ℤ) : List ℤ :=
  (List.range (hi + 1 - lo).toNat).map (fun k : ℕ => lo + (k : ℤ))

theorem mem_intRange {lo hi a : ℤ} : a ∈ intRange lo hi ↔ lo ≤ a ∧ a ≤ hi := by
  unfold intRange
  simp only [List.mem_map, List.mem_range]
  constructor
  · rintro ⟨k, hk, rfl⟩
    omega
  · intro h
    exact ⟨(a - lo).toNat, by omega, by omega⟩

theorem nodup_intRange (lo hi : ℤ) : (intRange lo hi).Nodup := by
  unfold intRange
  refine List.Nodup.map ?_ (List.nodup_range _)
  intro a b h
  simp only [add_right_inj, Nat.cast_inj] at h
  exact h

/-- Row-major list of the cells visited by a nested loop
`for (y = ly; y <= hy; ++y) for (x = lx; x <= hx; ++x)`, as pairs `(x, y)`
in visiting order. -/
def cellList (lx hx ly hy : ℤ) : List (ℤ × ℤ) :=
  (intRange ly hy).flatMap (fun y => (intRange lx hx).map (fun x => (x, y)))

theorem mem_cellList {lx hx ly hy : ℤ} {c : ℤ × ℤ} :
    c ∈ cellList lx hx ly hy ↔ (lx ≤ c.1 ∧ c.1 ≤ hx) ∧ (ly ≤ c.2 ∧ c.2 ≤ hy) := by
  unfold cellList
  simp only [List.mem_flatMap, List.mem_map, mem_intRange]
  constructor
  · rintro ⟨y, hy, x, hx, rfl⟩
    exact ⟨hx, hy⟩
  · rintro ⟨h1, h2⟩
    exact ⟨c.2, h2, c.1, h1, rfl⟩

theorem nodup_cellList (lx hx ly hy : ℤ) : (cellList lx hx ly hy).Nodup := by
  refine List.nodup_flatMap.mpr ⟨?_, ?_⟩
  · intro y _
    refine List.Nodup.map ?_ (nodup_intRange lx hx)
    intro a b h
    exact congrArg Prod.fst h
  · refine List.Pairwise.imp ?_ (nodup_intRange ly hy)
    intro a b hab c hca hcb
    simp only [List.mem_map] at hca hcb
    obtain ⟨x1, _, rfl⟩ := hca
    obtain ⟨x2, _, h2⟩ := hcb
    exact hab (congrArg Prod.snd h2).symm

section FoldStore

variable {V ι : Type}

/-- Evaluating a loop of guarded single-cell stores at a cell that no
iteration writes yields the original value: the generic shape is a body
that, when the guard `P c` holds, stores at cell `τ c` a value computed by
`g c` from the current value there, and otherwise leaves the grid alone. -/
theorem foldl_store_untouched
    (step : (ℤ → ℤ → V) → ι → (ℤ → ℤ → V)) (P : ι → Prop) (τ : ι → ℤ × ℤ)
    (g : ι → V → V)
    (hT : ∀ s c, P c → step s c = updf s (τ c).1 (τ c).2 (g c (s (τ c).1 (τ c).2)))
    (hF : ∀ s c, ¬ P c → step s c = s)
    (l : List ι) (s : ℤ → ℤ → V) (p q : ℤ)
    (hl : ∀ c ∈ l, P c → τ c ≠ (p, q)) :
    (l.foldl step s) p q = s p q := by
  induction l generalizing s with
  | nil => rfl
  | cons c t ih =>
    rw [List.foldl_cons]
    rw [ih (step s c) (fun c' hc' => hl c' (List.mem_cons_of_mem c hc'))]
    by_cases hc : P c
    · rw [hT s c hc]
      refine updf_other _ _ _ _ ?_
      intro hpq
      exact hl c (List.mem_cons_self c t) hc (by
        have h1 : (τ c).1 = p := hpq.1.symm
        have h2 : (τ c).2 = q := hpq.2.symm
        exact Prod.ext h1 h2)
    · rw [hF s c hc]

/-- Evaluating a loop of guarded single-cell stores at the unique iteration
`c` that writes cell `τ c` yields the stored value computed from the value
the grid still held when iteration `c` ran (all other iterations write
other cells). -/
theorem foldl_store_at
    (step : (ℤ → ℤ → V) → ι → (ℤ → ℤ → V)) (P : ι → Prop) (τ : ι → ℤ × ℤ)
    (g : ι → V → V)
    (hT : ∀ s c, P c → step s c = updf s (τ c).1 (τ c).2 (g c (s (τ c).1 (τ c).2)))
    (hF : ∀ s c, ¬ P c → step s c = s)
    (l : List ι) (hnd : l.Nodup) (c : ι) (hc : c ∈ l)
    (hinj : ∀ c' ∈ l, τ c' = τ c → c' = c) (hP : P c)
    (s : ℤ → ℤ → V) :
    (l.foldl step s) (τ c).1 (τ c).2 = g c (s (τ c).1 (τ c).2) := by
  obtain ⟨l₁, l₂, rfl⟩ := List.append_of_mem hc
  have hnd' := hnd
  rw [List.nodup_append] at hnd'
  obtain ⟨hnd1, hnd2, hdisj⟩ := hnd'
  have hc1 : c ∉ l₁ := fun hmem => hdisj hmem (List.mem_cons_self c l₂)
  have hc2 : c ∉ l₂ := ((List.nodup_cons.mp hnd2).1)
  rw [List.foldl_append, List.foldl_cons]
  have hstep2 : ∀ c' ∈ l₂, P c' → τ c' ≠ ((τ c).1, (τ c).2) := by
    intro c' h' _ heq
    have : c' = c := hinj c' (List.mem_append_right l₁ (List.mem_cons_of_mem c h')) (by
      rw [heq])
    exact hc2 (this ▸ h')
  rw [foldl_store_untouched step P τ g hT hF l₂ _ _ _ hstep2]
  rw [hT _ c hP, updf_same]
  have hstep1 : ∀ c' ∈ l₁, P c' → τ c' ≠ ((τ c).1, (τ c).2) := by
    intro c' h' _ heq
    have : c' = c := hinj c' (List.mem_append_left _ h') (by rw [heq])
    exact hc1 (this ▸ h')
  rw [foldl_store_untouched step P τ g hT hF l₁ _ _ _ hstep1]

end FoldStore

/-- State of `struct LiquidSim`: grid dimensions, the two configuration
scalars fixed by the constructor, and the two per-cell grids (the flat
`std::vector<float>` buffers viewed through `idx(x,y) = y*width + x`). -/
@[ext]
structure LiquidSim where
  width : ℤ
  height : ℤ
  stiffness : ℝ
  damping : ℝ
  heightField : ℤ → ℤ → ℝ
  velocityField : ℤ → ℤ → ℝ

/-- The constructor `LiquidSim(w, h)`: stiffness 0.2, damping 0.985, both
grids zero-initialized. -/
noncomputable def LiquidSim.init (w h : ℤ) : LiquidSim :=
  ⟨w, h, 0.2, 0.985, fun _ _ => 0, fun _ _ => 0⟩

/-- `AddImpulse(x, y, amount, radius)`: nested loops over offsets `j`
(outer) and `i` (inner) in `[-radius, radius]`; when the target cell
`(x+i, y+j)` is strictly interior, add `amount * exp(-(i*i+j*j) * 0.5)` to
its height. The velocity grid and all configuration are untouched. -/
noncomputable def LiquidSim.AddImpulse (s : LiquidSim) (x y : ℤ) (amount : ℝ)
    (radius : ℤ) : LiquidSim :=
  { s with heightField :=
      ((cellList (-radius) radius (-radius) radius).foldl
        (fun hf c =>
          if 0 < x + c.1 ∧ x + c.1 < s.width - 1 ∧ 0 < y + c.2 ∧ y + c.2 < s.height - 1 then
            updf hf (x + c.1) (y + c.2)
              (hf (x + c.1) (y + c.2) +
                amount * Real.exp (-((c.1 * c.1 + c.2 * c.2 : ℤ) : ℝ) * 0.5))
          else hf)
        s.heightField) }

/-- First pass of `Step()` (force accumulation): for each interior cell in
row-major order, add `(sumNeighbors - 4*center) * stiffness` to its
velocity. Only the velocity grid is written; heights are only read. -/
noncomputable def LiquidSim.pass1 (s : LiquidSim) : ℤ → ℤ → ℝ :=
  (cellList 1 (s.width - 2) 1 (s.height - 2)).foldl
    (fun v c =>
      updf v c.1 c.2
        (v c.1 c.2 +
          (s.heightField (c.1 - 1) c.2 + s.heightField (c.1 + 1) c.2 +
              s.heightField c.1 (c.2 - 1) + s.heightField c.1 (c.2 + 1) -
            4 * s.heightField c.1 c.2) * s.stiffness))
    s.velocityField

/-- Second pass of `Step()` (integration): for each interior cell in
row-major order, multiply its velocity by the literal constant `0.94`
(the source hard-codes this literal; the commented-out original used the
`damping` member), then add the damped velocity to its height. The
accumulator pairs each cell's (height, velocity). -/
noncomputable def LiquidSim.pass2 (w h : ℤ) (st : ℤ → ℤ → ℝ × ℝ) : ℤ → ℤ → ℝ × ℝ :=
  (cellList 1 (w - 2) 1 (h - 2)).foldl
    (fun f c =>
      updf f c.1 c.2
        ((f c.1 c.2).1 + (f c.1 c.2).2 * 0.94, (f c.1 c.2).2 * 0.94))
    st

/-- `Step()`: pass 1 over all interior cells, then pass 2 over all interior
cells; dimensions and configuration are unchanged. -/
noncomputable def LiquidSim.Step (s : LiquidSim) : LiquidSim :=
  { s with
    heightField := fun p q =>
      (LiquidSim.pass2 s.width s.height (fun u v => (s.heightField u v, s.pass1 u v)) p q).1
    velocityField := fun p q =>
      (LiquidSim.pass2 s.width s.height (fun u v => (s.heightField u v, s.pass1 u v)) p q).2 }

theorem AddImpulse_heightField_hit (s : LiquidSim) (x y : ℤ) (amount : ℝ)
    (radius i j : ℤ) (hi1 : -radius ≤ i) (hi2 : i ≤ radius)
    (hj1 : -radius ≤ j) (hj2 : j ≤ radius)
    (hin : 0 < x + i ∧ x + i < s.width - 1 ∧ 0 < y + j ∧ y + j < s.height - 1) :
    (s.AddImpulse x y amount radius).heightField (x + i) (y + j) =
      s.heightField (x + i) (y + j) +
        amount * Real.exp (-((i * i + j * j : ℤ) : ℝ) * 0.5) := by
  unfold LiquidSim.AddImpulse
  dsimp only
  exact foldl_store_at _
    (fun c => 0 < x + c.1 ∧ x + c.1 < s.width - 1 ∧ 0 < y + c.2 ∧ y + c.2 < s.height - 1)
    (fun c => (x + c.1, y + c.2))
    (fun c hv => hv + amount * Real.exp (-((c.1 * c.1 + c.2 * c.2 : ℤ) : ℝ) * 0.5))
    (fun f c hc => if_pos hc)
    (fun f c hc => if_neg hc)
    _ (nodup_cellList _ _ _ _) (i, j)
    (mem_cellList.mpr ⟨⟨hi1, hi2⟩, ⟨hj1, hj2⟩⟩)
    (fun c' _ hc' => by
      have h1 : c'.1 = i := by
        have := congrArg Prod.fst hc'
        dsimp at this
        omega
      have h2 : c'.2 = j := by
        have := congrArg Prod.snd hc'
        dsimp at this
        omega
      exact Prod.ext h1 h2)
    hin s.heightField

theorem AddImpulse_heightField_miss (s : LiquidSim) (x y : ℤ) (amount : ℝ)
    (radius p q : ℤ)
    (h : ¬((-radius ≤ p - x ∧ p - x ≤ radius ∧ -radius ≤ q - y ∧ q - y ≤ radius) ∧
        (0 < p ∧ p < s.width - 1 ∧ 0 < q ∧ q < s.height - 1))) :
    (s.AddImpulse x y amount radius).heightField p q = s.heightField p q := by
  unfold LiquidSim.AddImpulse
  dsimp only
  refine foldl_store_untouched _
    (fun c : ℤ × ℤ => 0 < x + c.1 ∧ x + c.1 < s.width - 1 ∧ 0 < y + c.2 ∧ y + c.2 < s.height - 1)
    (fun c : ℤ × ℤ => (x + c.1, y + c.2))
    (fun (c : ℤ × ℤ) (hv : ℝ) => hv + amount * Real.exp (-((c.1 * c.1 + c.2 * c.2 : ℤ) : ℝ) * 0.5))
    (fun f c hc => if_pos hc)
    (fun f c hc => if_neg hc)
    _ s.heightField p q ?_
  intro c hcmem hcP hceq
  have hb := mem_cellList.mp hcmem
  have h1 : x + c.1 = p := congrArg Prod.fst hceq
  have h2 : y + c.2 = q := congrArg Prod.snd hceq
  exact h ⟨⟨by omega, by omega, by omega, by omega⟩, by
    refine ⟨?_, ?_, ?_, ?_⟩ <;> omega⟩

theorem AddImpulse_velocityField (s : LiquidSim) (x y : ℤ) (amount : ℝ) (radius : ℤ) :
    (s.AddImpulse x y amount radius).velocityField = s.velocityField := rfl

theorem AddImpulse_width (s : LiquidSim) (x y : ℤ) (amount : ℝ) (radius : ℤ) :
    (s.AddImpulse x y amount radius).width = s.width := rfl

theorem AddImpulse_height (s : LiquidSim) (x y : ℤ) (amount : ℝ) (radius : ℤ) :
    (s.AddImpulse x y amount radius).height = s.height := rfl

theorem pass1_interior (s : LiquidSim) (p q : ℤ)
    (h1 : 1 ≤ p) (h2 : p ≤ s.width - 2) (h3 : 1 ≤ q) (h4 : q ≤ s.height - 2) :
    s.pass1 p q =
      s.velocityField p q +
        (s.heightField (p - 1) q + s.heightField (p + 1) q +
            s.heightField p (q - 1) + s.heightField p (q + 1) -
          4 * s.heightField p q) * s.stiffness := by
  unfold LiquidSim.pass1
  exact foldl_store_at _ (fun _ => True) (fun c => c)
    (fun c vv => vv +
      (s.heightField (c.1 - 1) c.2 + s.heightField (c.1 + 1) c.2 +
          s.heightField c.1 (c.2 - 1) + s.heightField c.1 (c.2 + 1) -
        4 * s.heightField c.1 c.2) * s.stiffness)
    (fun f c _ => rfl) (fun f c hc => absurd trivial hc)
    _ (nodup_cellList _ _ _ _) (p, q)
    (mem_cellList.mpr ⟨⟨h1, h2⟩, ⟨h3, h4⟩⟩)
    (fun c' _ hc' => hc') trivial s.velocityField

theorem pass1_notin (s : LiquidSim) (p q : ℤ)
    (h : ¬(1 ≤ p ∧ p ≤ s.width - 2 ∧ 1 ≤ q ∧ q ≤ s.height - 2)) :
    s.pass1 p q = s.velocityField p q := by
  unfold LiquidSim.pass1
  refine foldl_store_untouched _ (fun _ => True) (fun c : ℤ × ℤ => c)
    (fun (c : ℤ × ℤ) (vv : ℝ) => vv +
      (s.heightField (c.1 - 1) c.2 + s.heightField (c.1 + 1) c.2 +
          s.heightField c.1 (c.2 - 1) + s.heightField c.1 (c.2 + 1) -
        4 * s.heightField c.1 c.2) * s.stiffness)
    (fun f c _ => rfl) (fun f c hc => absurd trivial hc)
    _ s.velocityField p q ?_
  intro c hcmem _ hceq
  have hb := mem_cellList.mp hcmem
  have h1 : c.1 = p := congrArg Prod.fst hceq
  have h2 : c.2 = q := congrArg Prod.snd hceq
  exact h ⟨by omega, by omega, by omega, by omega⟩

theorem pass2_interior (w h : ℤ) (st : ℤ → ℤ → ℝ × ℝ) (p q : ℤ)
    (h1 : 1 ≤ p) (h2 : p ≤ w - 2) (h3 : 1 ≤ q) (h4 : q ≤ h - 2) :
    LiquidSim.pass2 w h st p q =
      ((st p q).1 + (st p q).2 * 0.94, (st p q).2 * 0.94) := by
  unfold LiquidSim.pass2
  exact foldl_store_at _ (fun _ => True) (fun c => c)
    (fun c hv => (hv.1 + hv.2 * 0.94, hv.2 * 0.94))
    (fun f c _ => rfl) (fun f c hc => absurd trivial hc)
    _ (nodup_cellList _ _ _ _) (p, q)
    (mem_cellList.mpr ⟨⟨h1, h2⟩, ⟨h3, h4⟩⟩)
    (fun c' _ hc' => hc') trivial st

theorem pass2_notin (w h : ℤ) (st : ℤ → ℤ → ℝ × ℝ) (p q : ℤ)
    (hno : ¬(1 ≤ p ∧ p ≤ w - 2 ∧ 1 ≤ q ∧ q ≤ h - 2)) :
    LiquidSim.pass2 w h st p q = st p q := by
  unfold LiquidSim.pass2
  refine foldl_store_untouched _ (fun _ => True) (fun c : ℤ × ℤ => c)
    (fun (c : ℤ × ℤ) (hv : ℝ × ℝ) => (hv.1 + hv.2 * 0.94, hv.2 * 0.94))
    (fun f c _ => rfl) (fun f c hc => absurd trivial hc)
    _ st p q ?_
  intro c hcmem _ hceq
  have hb := mem_cellList.mp hcmem
  have h1 : c.1 = p := congrArg Prod.fst hceq
  have h2 : c.2 = q := congrArg Prod.snd hceq
  exact hno ⟨by omega, by omega, by omega, by omega⟩

theorem Step_velocityField_interior (s : LiquidSim) (p q : ℤ)
    (h1 : 1 ≤ p) (h2 : p ≤ s.width - 2) (h3 : 1 ≤ q) (h4 : q ≤ s.height - 2) :
    (s.Step).velocityField p q =
      (s.velocityField p q +
          (s.heightField (p - 1) q + s.heightField (p + 1) q +
              s.heightField p (q - 1) + s.heightField p (q + 1) -
            4 * s.heightField p q) * s.stiffness) * 0.94 := by
  show (LiquidSim.pass2 s.width s.height
      (fun u v => (s.heightField u v, s.pass1 u v)) p q).2 = _
  rw [pass2_interior s.width s.height _ p q h1 h2 h3 h4]
  dsimp only
  rw [pass1_interior s p q h1 h2 h3 h4]

theorem Step_heightField_interior (s : LiquidSim) (p q : ℤ)
    (h1 : 1 ≤ p) (h2 : p ≤ s.width - 2) (h3 : 1 ≤ q) (h4 : q ≤ s.height - 2) :
    (s.Step).heightField p q = s.heightField p q + (s.Step).velocityField p q := by
  show (LiquidSim.pass2 s.width s.height
      (fun u v => (s.heightField u v, s.pass1 u v)) p q).1 =
    s.heightField p q +
      (LiquidSim.pass2 s.width s.height
        (fun u v => (s.heightField u v, s.pass1 u v)) p q).2
  rw [pass2_interior s.width s.height _ p q h1 h2 h3 h4]

theorem Step_velocityField_notin (s : LiquidSim) (p q : ℤ)
    (h : ¬(1 ≤ p ∧ p ≤ s.width - 2 ∧ 1 ≤ q ∧ q ≤ s.height - 2)) :
    (s.Step).velocityField p q = s.velocityField p q := by
  show (LiquidSim.pass2 s.width s.height
      (fun u v => (s.heightField u v, s.pass1 u v)) p q).2 = _
  rw [pass2_notin s.width s.height _ p q h]
  dsimp only
  exact pass1_notin s p q h

theorem Step_heightField_notin (s : LiquidSim) (p q : ℤ)
    (h : ¬(1 ≤ p ∧ p ≤ s.width - 2 ∧ 1 ≤ q ∧ q ≤ s.height - 2)) :
    (s.Step).heightField p q = s.heightField p q := by
  show (LiquidSim.pass2 s.width s.height
      (fun u v => (s.heightField u v, s.pass1 u v)) p q).1 = _
  rw [pass2_notin s.width s.height _ p q h]

theorem Step_width (s : LiquidSim) : (s.Step).width = s.width := rfl

theorem Step_height (s : LiquidSim) : (s.Step).height = s.height := rfl

/-- raylib `Vector2` with float components. -/
structure Vector2 where
  x : ℝ
  y : ℝ

/-- raylib `Vector3` with float components. -/
structure Vector3 where
  x : ℝ
  y : ℝ
  z : ℝ

/-- raylib `Color`: four 8-bit channels (r, g, b, a), modelled as naturals
that the program keeps below 256. -/
structure Color where
  r : ℕ
  g : ℕ
  b : ℕ
  a : ℕ

/-- Cubemap face color for +X in `SampleCubemap`. -/
def envRight : Color := ⟨200, 180, 160, 255⟩

/-- Cubemap face color for -X in `SampleCubemap`. -/
def envLeft : Color := ⟨160, 180, 200, 255⟩

/-- Cubemap face color for +Y in `SampleCubemap`. -/
def envUp : Color := ⟨180, 200, 255, 255⟩

/-- Cubemap face color for -Y in `SampleCubemap`. -/
def envDown : Color := ⟨40, 40, 50, 255⟩

/-- Cubemap face color for +Z in `SampleCubemap`. -/
def envFront : Color := ⟨120, 130, 150, 255⟩

/-- Cubemap face color for -Z in `SampleCubemap`. -/
def envBack : Color := ⟨80, 70, 60, 255⟩

/-- `SampleCubemap(n)`: pick one of six fixed colors from the dominant axis
of the normal, testing `ax > ay && ax > az`, then `ay > az`, with the sign
of the winning component choosing the face. -/
noncomputable def SampleCubemap (n : Vector3) : Color :=
  let ax := |n.x|
  let ay := |n.y|
  let az := |n.z|
  if ax > ay ∧ ax > az then (if n.x > 0 then envRight else envLeft)
  else if ay > az then (if n.y > 0 then envUp else envDown)
  else (if n.z > 0 then envFront else envBack)

/-- raymath `Clamp(value, min, max)`: raise to `min`, then cap at `max`. -/
noncomputable def rayClamp (value lo hi : ℝ) : ℝ :=
  let result := if value < lo then lo else value
  if result > hi then hi else result

/-- The C cast `(unsigned char)` applied to a float: truncation toward zero
(floor, as every operand cast in this program is nonnegative), reduced mod
256 to land in the 8-bit range. -/
noncomputable def ucharCast (v : ℝ) : ℕ := (⌊v⌋).toNat % 256

/-- Central difference `dx = hR - hL` of the height field at a cell. -/
noncomputable def gradX (s : LiquidSim) (x y : ℤ) : ℝ :=
  s.heightField (x + 1) y - s.heightField (x - 1) y

/-- Central difference `dy = hD - hU` of the height field at a cell. -/
noncomputable def gradY (s : LiquidSim) (x y : ℤ) : ℝ :=
  s.heightField x (y + 1) - s.heightField x (y - 1)

/-- Candidate surface normal `n = (-dx, -dy, 1.0f)` before normalization. -/
noncomputable def candidateNormal (s : LiquidSim) (x y : ℤ) : Vector3 :=
  ⟨-(gradX s x y), -(gradY s x y), 1⟩

/-- `len = sqrt(n.x*n.x + n.y*n.y + n.z*n.z)`. -/
noncomputable def vecLen (n : Vector3) : ℝ :=
  Real.sqrt (n.x * n.x + n.y * n.y + n.z * n.z)

/-- The guarded normalization in `RenderToImage`: divide each component by
the length when `len > 0`, otherwise leave the vector unnormalized. -/
noncomputable def normalizeGuarded (n : Vector3) : Vector3 :=
  if vecLen n > 0 then ⟨n.x / vecLen n, n.y / vecLen n, n.z / vecLen n⟩ else n

/-- The per-pixel surface normal used by the shader. -/
noncomputable def surfaceNormal (s : LiquidSim) (x y : ℤ) : Vector3 :=
  normalizeGuarded (candidateNormal s x y)

/-- `intensity = Clamp(0.4 + ndotl * 0.6, 0, 1)` where
`ndotl = n.x*lightDir.x + n.y*lightDir.y + n.z*1.0`. -/
noncomputable def shadeIntensity (s : LiquidSim) (lightDir : Vector2) (x y : ℤ) : ℝ :=
  rayClamp
    (0.4 +
      ((surfaceNormal s x y).x * lightDir.x + (surfaceNormal s x y).y * lightDir.y +
          (surfaceNormal s x y).z * 1) * 0.6)
    0 1

/-- `chrome = (unsigned char)(powf(intensity, 0.6f) * 255.0f)`. -/
noncomputable def chromeVal (s : LiquidSim) (lightDir : Vector2) (x y : ℤ) : ℕ :=
  ucharCast (Real.rpow (shadeIntensity s lightDir x y) 0.6 * 255)

/-- The RGBA value written to an interior pixel: each color channel is
`(unsigned char)(chrome * 0.4f + env.channel * 0.6f)` with the cubemap
sample `env`, and alpha is the constant 180. -/
noncomputable def shadePixel (s : LiquidSim) (lightDir : Vector2) (x y : ℤ) : Color :=
  ⟨ucharCast ((chromeVal s lightDir x y : ℝ) * 0.4 +
      ((SampleCubemap (surfaceNormal s x y)).r : ℝ) * 0.6),
    ucharCast ((chromeVal s lightDir x y : ℝ) * 0.4 +
      ((SampleCubemap (surfaceNormal s x y)).g : ℝ) * 0.6),
    ucharCast ((chromeVal s lightDir x y : ℝ) * 0.4 +
      ((SampleCubemap (surfaceNormal s x y)).b : ℝ) * 0.6),
    180⟩

/-- The output RGBA pixel buffer (`Color *pixels`), viewed through the same
`idx(x,y)` scheme as the simulation grids. -/
@[ext]
structure Image where
  data : ℤ → ℤ → Color

/-- `RenderToImage(img, lightDir)`: loop over all interior cells in
row-major order, storing the shaded pixel; boundary pixels are not written.
The returned pair models the method call: receiver state out, image out. -/
noncomputable def RenderToImage (s : LiquidSim) (img : Image) (lightDir : Vector2) :
    LiquidSim × Image :=
  (s,
    ⟨(cellList 1 (s.width - 2) 1 (s.height - 2)).foldl
      (fun d c => updf d c.1 c.2 (shadePixel s lightDir c.1 c.2)) img.data⟩)

theorem renderData_interior (s : LiquidSim) (img : Image) (lightDir : Vector2)
    (p q : ℤ) (h1 : 1 ≤ p) (h2 : p ≤ s.width - 2) (h3 : 1 ≤ q) (h4 : q ≤ s.height - 2) :
    (RenderToImage s img lightDir).2.data p q = shadePixel s lightDir p q := by
  show ((cellList 1 (s.width - 2) 1 (s.height - 2)).foldl
      (fun d c => updf d c.1 c.2 (shadePixel s lightDir c.1 c.2)) img.data) p q = _
  exact foldl_store_at _ (fun _ => True) (fun c : ℤ × ℤ => c)
    (fun (c : ℤ × ℤ) (_ : Color) => shadePixel s lightDir c.1 c.2)
    (fun f c _ => rfl) (fun f c hc => absurd trivial hc)
    _ (nodup_cellList _ _ _ _) (p, q)
    (mem_cellList.mpr ⟨⟨h1, h2⟩, ⟨h3, h4⟩⟩)
    (fun c' _ hc' => hc') trivial img.data

theorem renderData_notin (s : LiquidSim) (img : Image) (lightDir : Vector2)
    (p q : ℤ) (hno : ¬(1 ≤ p ∧ p ≤ s.width - 2 ∧ 1 ≤ q ∧ q ≤ s.height - 2)) :
    (RenderToImage s img lightDir).2.data p q = img.data p q := by
  show ((cellList 1 (s.width - 2) 1 (s.height - 2)).foldl
      (fun d c => updf d c.1 c.2 (shadePixel s lightDir c.1 c.2)) img.data) p q = _
  refine foldl_store_untouched _ (fun _ => True) (fun c : ℤ × ℤ => c)
    (fun (c : ℤ × ℤ) (_ : Color) => shadePixel s lightDir c.1 c.2)
    (fun f c _ => rfl) (fun f c hc => absurd trivial hc)
    _ img.data p q ?_
  intro c hcmem _ hceq
  have hb := mem_cellList.mp hcmem
  have h1 : c.1 = p := congrArg Prod.fst hceq
  have h2 : c.2 = q := congrArg Prod.snd hceq
  exact hno ⟨by omega, by omega, by omega, by omega⟩

/-- Iterating the render call on a fixed simulation state: the per-tick
loop calls `RenderToImage` once per tick on the image buffer. -/
noncomputable def renderN (lightDir : Vector2) : ℕ → LiquidSim × Image → LiquidSim × Image
  | 0, p => p
  | n + 1, p => renderN lightDir n (RenderToImage p.1 p.2 lightDir)

theorem render_idempotent (s : LiquidSim) (img : Image) (lightDir : Vector2) :
    (RenderToImage s (RenderToImage s img lightDir).2 lightDir).2 =
      (RenderToImage s img lightDir).2 := by
  have hdata : ∀ p q : ℤ,
      (RenderToImage s (RenderToImage s img lightDir).2 lightDir).2.data p q =
        (RenderToImage s img lightDir).2.data p q := by
    intro p q
    by_cases hin : 1 ≤ p ∧ p ≤ s.width - 2 ∧ 1 ≤ q ∧ q ≤ s.height - 2
    · rw [renderData_interior s _ lightDir p q hin.1 hin.2.1 hin.2.2.1 hin.2.2.2,
        renderData_interior s img lightDir p q hin.1 hin.2.1 hin.2.2.1 hin.2.2.2]
    · rw [renderData_notin s _ lightDir p q hin, renderData_notin s img lightDir p q hin]
  exact Image.ext (funext fun p => funext fun q => hdata p q)

/-- A 4-by-4 state with the constructor configuration (stiffness 0.2,
damping 0.985), zero heights, and unit velocity at the interior cell
(1, 1); used to observe the per-tick velocity decay. -/
noncomputable def velProbe : LiquidSim :=
  ⟨4, 4, 0.2, 0.985, fun _ _ => 0, fun p q => if p = 1 ∧ q = 1 then 1 else 0⟩

/-- Claim C1 (counterexample): on a state with the constructor-configured
damping 0.985 and unit velocity at the interior cell (1, 1) of a 4-by-4
grid with flat heights, Step leaves velocity 0.94 at that cell, while
dampingFactor times the old velocity is 0.985 — the per-tick velocity
decay applied by Step is the hard-coded literal 0.94, not the dampingFactor
configuration value. -/
theorem claim1_counterexample :
    (velProbe.Step).velocityField 1 1 = 0.94 ∧
      velProbe.damping * velProbe.velocityField 1 1 = 0.985 ∧
      (0.94 : ℝ) ≠ 0.985 := by
  refine ⟨?_, ?_, by norm_num⟩
  · rw [Step_velocityField_interior velProbe 1 1 (by norm_num) (by decide)
      (by norm_num) (by decide)]
    simp only [velProbe]
    norm_num
  · simp only [velProbe]
    norm_num

/-- Claim C1 (amended): for every interior cell, the integration pass of
Step multiplies that cell's velocity (after force accumulation) by the
hard-coded literal 0.94 — not by the configured dampingFactor — and then
adds the damped velocity to the cell's height; the damping configuration
value has no effect on the grids Step produces. -/
theorem claim1_amended (s : LiquidSim) (p q : ℤ)
    (h1 : 1 ≤ p) (h2 : p ≤ s.width - 2) (h3 : 1 ≤ q) (h4 : q ≤ s.height - 2) :
    (s.Step).velocityField p q =
      (s.velocityField p q +
          (s.heightField (p - 1) q + s.heightField (p + 1) q +
              s.heightField p (q - 1) + s.heightField p (q + 1) -
            4 * s.heightField p q) * s.stiffness) * 0.94 ∧
    (s.Step).heightField p q = s.heightField p q + (s.Step).velocityField p q ∧
    ∀ d : ℝ,
      ({ s with damping := d }).Step.velocityField p q = (s.Step).velocityField p q ∧
      ({ s with damping := d }).Step.heightField p q = (s.Step).heightField p q :=
  ⟨Step_velocityField_interior s p q h1 h2 h3 h4,
   Step_heightField_interior s p q h1 h2 h3 h4,
   fun _ => ⟨rfl, rfl⟩⟩

/-- Witness for the amended claim C1 at a concrete state and interior cell. -/
theorem claim1_witness :
    (velProbe.Step).heightField 1 1 =
      velProbe.heightField 1 1 + (velProbe.Step).velocityField 1 1 :=
  (claim1_amended velProbe 1 1 (by decide) (by decide) (by decide) (by decide)).2.1

/-- Claim C2 (counterexample): after AddImpulse(10, 10, 1.0, 2) on the
zero-initialized 20-by-20 field, the cell (12, 12) sits at offset (2, 2)
whose squared Euclidean distance 8 exceeds radius² = 4 (distance 2√2 > 2),
yet its height is exp(-4) ≠ 0: cells farther than the radius but inside
the affected square do not remain zero. -/
theorem claim2_counterexample :
    ((2 : ℤ) * 2 + 2 * 2 > 2 * 2) ∧
      ((LiquidSim.init 20 20).AddImpulse 10 10 1 2).heightField 12 12 ≠ 0 := by
  refine ⟨by norm_num, ?_⟩
  have h := AddImpulse_heightField_hit (LiquidSim.init 20 20) 10 10 1 2 2 2
    (by norm_num) (by norm_num) (by norm_num) (by norm_num)
    ⟨by norm_num, by norm_num [LiquidSim.init], by norm_num, by norm_num [LiquidSim.init]⟩
  rw [show (10 : ℤ) + 2 = 12 by norm_num] at h
  rw [h]
  simp only [LiquidSim.init]
  norm_num [Real.exp_ne_zero]

/-- Claim C2 (amended): after a single AddImpulse(x0, y0, amount=1.0,
radius=2) on an all-zero field with the whole affected square strictly
interior, the center height equals exp(0) = 1.0; within the affected
square, heights strictly decrease as squared Euclidean distance from the
center grows; and every cell whose CHEBYSHEV distance from (x0, y0)
exceeds the radius (not Euclidean distance, which fails at the square's
corners) still has height exactly zero. -/
theorem claim2_amended (w h x0 y0 : ℤ)
    (hx1 : 3 ≤ x0) (hx2 : x0 ≤ w - 4) (hy1 : 3 ≤ y0) (hy2 : y0 ≤ h - 4) :
    ((LiquidSim.init w h).AddImpulse x0 y0 1 2).heightField x0 y0 = 1 ∧
    (∀ i j i' j' : ℤ, -2 ≤ i → i ≤ 2 → -2 ≤ j → j ≤ 2 →
      -2 ≤ i' → i' ≤ 2 → -2 ≤ j' → j' ≤ 2 →
      i * i + j * j < i' * i' + j' * j' →
      ((LiquidSim.init w h).AddImpulse x0 y0 1 2).heightField (x0 + i') (y0 + j') <
        ((LiquidSim.init w h).AddImpulse x0 y0 1 2).heightField (x0 + i) (y0 + j)) ∧
    (∀ p q : ℤ, 2 < |p - x0| ∨ 2 < |q - y0| →
      ((LiquidSim.init w h).AddImpulse x0 y0 1 2).heightField p q = 0) := by
  have hval : ∀ i j : ℤ, -2 ≤ i → i ≤ 2 → -2 ≤ j → j ≤ 2 →
      ((LiquidSim.init w h).AddImpulse x0 y0 1 2).heightField (x0 + i) (y0 + j) =
        Real.exp (-((i * i + j * j : ℤ) : ℝ) * 0.5) := by
    intro i j hi1 hi2 hj1 hj2
    rw [AddImpulse_heightField_hit (LiquidSim.init w h) x0 y0 1 2 i j hi1 hi2 hj1 hj2
      ⟨by omega, by simp only [LiquidSim.init]; omega, by omega,
        by simp only [LiquidSim.init]; omega⟩]
    simp only [LiquidSim.init]
    norm_num
  refine ⟨?_, ?_, ?_⟩
  · have h0 := hval 0 0 (by norm_num) (by norm_num) (by norm_num) (by norm_num)
    rw [add_zero, add_zero] at h0
    rw [h0]
    norm_num [Real.exp_zero]
  · intro i j i' j' hi1 hi2 hj1 hj2 hi1' hi2' hj1' hj2' hlt
    rw [hval i j hi1 hi2 hj1 hj2, hval i' j' hi1' hi2' hj1' hj2']
    apply Real.exp_lt_exp.mpr
    have hc : ((i * i + j * j : ℤ) : ℝ) < ((i' * i' + j' * j' : ℤ) : ℝ) := by
      exact_mod_cast hlt
    linarith
  · intro p q hout
    rw [AddImpulse_heightField_miss]
    · simp [LiquidSim.init]
    · rintro ⟨⟨a1, a2, a3, a4⟩, -⟩
      rcases hout with ho | ho
      · rcases lt_abs.mp ho with ho' | ho' <;> omega
      · rcases lt_abs.mp ho with ho' | ho' <;> omega

/-- Witness for the amended claim C2 at the concrete configuration from the
spec's testable property (20-by-20 grid, impulse at the center). -/
theorem claim2_witness :
    ((LiquidSim.init 20 20).AddImpulse 10 10 1 2).heightField 10 10 = 1 :=
  (claim2_amended 20 20 10 10 (by norm_num) (by norm_num) (by norm_num)
    (by norm_num)).1

/-- Claim C3 (counterexample): the normal (1, 1, 0) has |x| = |y| > |z|,
but SampleCubemap selects the +Y face color envUp, not an X-face color —
the strict comparisons resolve the tie against the earlier axis. -/
theorem claim3_counterexample :
    SampleCubemap ⟨1, 1, 0⟩ = envUp ∧ envUp ≠ envRight ∧ envUp ≠ envLeft := by
  refine ⟨?_, by simp [envUp, envRight], by simp [envUp, envLeft]⟩
  simp only [SampleCubemap]
  norm_num

/-- Claim C3 (amended): the normal is classified by its largest absolute
component, with the matching sign selecting one of six fixed colors, but
ties are resolved toward the LATER axis, not the earlier one: the X face
requires |x| strictly greater than both |y| and |z|, and the Y face
requires |y| strictly greater than |z|; in particular a normal with
|x| = |y| > |z| selects a Y-face color, not an X-face color. -/
theorem claim3_amended (n : Vector3) :
    (|n.x| > |n.y| ∧ |n.x| > |n.z| →
      SampleCubemap n = (if n.x > 0 then envRight else envLeft)) ∧
    (|n.y| > |n.x| ∧ |n.y| > |n.z| →
      SampleCubemap n = (if n.y > 0 then envUp else envDown)) ∧
    (|n.z| > |n.x| ∧ |n.z| > |n.y| →
      SampleCubemap n = (if n.z > 0 then envFront else envBack)) ∧
    (|n.x| = |n.y| ∧ |n.y| > |n.z| →
      SampleCubemap n = (if n.y > 0 then envUp else envDown)) := by
  simp only [SampleCubemap]
  refine ⟨?_, ?_, ?_, ?_⟩
  · rintro ⟨h1, h2⟩
    rw [if_pos ⟨h1, h2⟩]
  · rintro ⟨h1, h2⟩
    rw [if_neg, if_pos h2]
    rintro ⟨ha, -⟩
    exact absurd h1 (not_lt.mpr (le_of_lt ha))
  · rintro ⟨h1, h2⟩
    rw [if_neg, if_neg]
    · exact not_lt.mpr (le_of_lt h2)
    · rintro ⟨-, ha⟩
      exact absurd h1 (not_lt.mpr (le_of_lt ha))
  · rintro ⟨h1, h2⟩
    rw [if_neg, if_pos h2]
    rintro ⟨ha, -⟩
    rw [h1] at ha
    exact lt_irrefl _ ha

/-- Witness for the amended claim C3: the normal (2, 2, 1) satisfies
|x| = |y| > |z| and gets the +Y face color. -/
theorem claim3_witness : SampleCubemap ⟨2, 2, 1⟩ = envUp := by
  have h := (claim3_amended ⟨2, 2, 1⟩).2.2.2 ⟨by norm_num, by norm_num⟩
  rw [h]
  norm_num

/-- The two mutating operations the host loop can invoke on the simulation
state between construction and rendering. -/
inductive SimOp
  | impulse (x y : ℤ) (amount : ℝ) (radius : ℤ)
  | step

/-- Apply one operation to the simulation state. -/
noncomputable def applyOp (s : LiquidSim) : SimOp → LiquidSim
  | SimOp.impulse x y amount radius => s.AddImpulse x y amount radius
  | SimOp.step => s.Step

/-- Run a sequence of operations from a starting state, in order. -/
noncomputable def runOps (s : LiquidSim) (ops : List SimOp) : LiquidSim :=
  ops.foldl applyOp s

theorem applyOp_width (s : LiquidSim) (o : SimOp) : (applyOp s o).width = s.width := by
  cases o <;> rfl

theorem applyOp_height (s : LiquidSim) (o : SimOp) : (applyOp s o).height = s.height := by
  cases o <;> rfl

theorem applyOp_boundary (s : LiquidSim) (o : SimOp) (x y : ℤ)
    (hb : x = 0 ∨ x = s.width - 1 ∨ y = 0 ∨ y = s.height - 1) :
    (applyOp s o).heightField x y = s.heightField x y ∧
      (applyOp s o).velocityField x y = s.velocityField x y := by
  have hni : ¬(1 ≤ x ∧ x ≤ s.width - 2 ∧ 1 ≤ y ∧ y ≤ s.height - 2) := by
    rintro ⟨b1, b2, b3, b4⟩
    rcases hb with hb | hb | hb | hb <;> omega
  cases o with
  | impulse px py amount radius =>
    refine ⟨?_, rfl⟩
    apply AddImpulse_heightField_miss
    rintro ⟨-, hin⟩
    exact hni ⟨by omega, by omega, by omega, by omega⟩
  | step =>
    exact ⟨Step_heightField_notin s x y hni, Step_velocityField_notin s x y hni⟩

theorem runOps_boundary (ops : List SimOp) (s : LiquidSim) (x y : ℤ)
    (hb : x = 0 ∨ x = s.width - 1 ∨ y = 0 ∨ y = s.height - 1) :
    (runOps s ops).heightField x y = s.heightField x y ∧
      (runOps s ops).velocityField x y = s.velocityField x y := by
  induction ops generalizing s with
  | nil => exact ⟨rfl, rfl⟩
  | cons o t ih =>
    have hb' : x = 0 ∨ x = (applyOp s o).width - 1 ∨ y = 0 ∨
        y = (applyOp s o).height - 1 := by
      rw [applyOp_width, applyOp_height]
      exact hb
    have h1 := applyOp_boundary s o x y hb
    have h2 := ih (applyOp s o) hb'
    exact ⟨h2.1.trans h1.1, h2.2.trans h1.2⟩

/-- Claim C4: for every sequence of AddImpulse and Step calls starting from
the zero-initialized field, every cell on the outer boundary ring
(x = 0, x = width-1, y = 0 or y = height-1) keeps its initial zero value in
both the height grid and the velocity grid — neither Step nor AddImpulse
ever writes a boundary cell. -/
theorem claim4_theorem (w h : ℤ) (ops : List SimOp) (x y : ℤ)
    (hb : x = 0 ∨ x = w - 1 ∨ y = 0 ∨ y = h - 1) :
    (runOps (LiquidSim.init w h) ops).heightField x y = 0 ∧
      (runOps (LiquidSim.init w h) ops).velocityField x y = 0 :=
  runOps_boundary ops (LiquidSim.init w h) x y hb

/-- Witness for claim C4: a concrete impulse-then-step sequence on a 6-by-6
grid, checked at the boundary cell (0, 3). -/
theorem claim4_witness :
    (runOps (LiquidSim.init 6 6) [SimOp.impulse 3 3 1 3, SimOp.step]).heightField 0 3 = 0 ∧
      (runOps (LiquidSim.init 6 6) [SimOp.impulse 3 3 1 3, SimOp.step]).velocityField 0 3 = 0 :=
  claim4_theorem 6 6 [SimOp.impulse 3 3 1 3, SimOp.step] 0 3 (Or.inl rfl)

/-- Claim C5: on a field whose height grid has a single nonzero interior
cell (value a at (cx, cy), well inside the boundary), all velocities zero
and nonzero stiffness, one Step call produces nonzero velocity in all 4
axis-adjacent neighbors of the spike, and the height change at the center
equals the damped force computed from the PRE-update neighbor heights —
the force pass over all interior cells completes before the integration
pass begins. -/
theorem claim5_theorem (s : LiquidSim) (cx cy : ℤ) (a : ℝ)
    (hc : s.heightField cx cy = a)
    (hz : ∀ u v : ℤ, ¬(u = cx ∧ v = cy) → s.heightField u v = 0)
    (hV : ∀ u v : ℤ, s.velocityField u v = 0)
    (ha : a ≠ 0) (hk : s.stiffness ≠ 0)
    (b1 : 2 ≤ cx) (b2 : cx ≤ s.width - 3) (b3 : 2 ≤ cy) (b4 : cy ≤ s.height - 3) :
    ((s.Step).velocityField (cx - 1) cy ≠ 0 ∧
      (s.Step).velocityField (cx + 1) cy ≠ 0 ∧
      (s.Step).velocityField cx (cy - 1) ≠ 0 ∧
      (s.Step).velocityField cx (cy + 1) ≠ 0) ∧
    (s.Step).heightField cx cy =
      s.heightField cx cy +
        (s.velocityField cx cy +
            (s.heightField (cx - 1) cy + s.heightField (cx + 1) cy +
                s.heightField cx (cy - 1) + s.heightField cx (cy + 1) -
              4 * s.heightField cx cy) * s.stiffness) * 0.94 := by
  have hres : a * s.stiffness * 0.94 ≠ 0 :=
    mul_ne_zero (mul_ne_zero ha hk) (by norm_num)
  constructor
  · refine ⟨?_, ?_, ?_, ?_⟩
    · have hn := Step_velocityField_interior s (cx - 1) cy
        (by omega) (by omega) (by omega) (by omega)
      rw [hV, hz (cx - 1 - 1) cy (by rintro ⟨e, -⟩; omega),
        hz (cx - 1) (cy - 1) (by rintro ⟨e, -⟩; omega),
        hz (cx - 1) (cy + 1) (by rintro ⟨e, -⟩; omega),
        hz (cx - 1) cy (by rintro ⟨e, -⟩; omega),
        show cx - 1 + 1 = cx by ring, hc] at hn
      rw [hn, show (0 + (0 + a + 0 + 0 - 4 * 0) * s.stiffness) * 0.94 =
        a * s.stiffness * 0.94 by ring]
      exact hres
    · have hn := Step_velocityField_interior s (cx + 1) cy
        (by omega) (by omega) (by omega) (by omega)
      rw [hV, hz (cx + 1 + 1) cy (by rintro ⟨e, -⟩; omega),
        hz (cx + 1) (cy - 1) (by rintro ⟨e, -⟩; omega),
        hz (cx + 1) (cy + 1) (by rintro ⟨e, -⟩; omega),
        hz (cx + 1) cy (by rintro ⟨e, -⟩; omega),
        show cx + 1 - 1 = cx by ring, hc] at hn
      rw [hn, show (0 + (a + 0 + 0 + 0 - 4 * 0) * s.stiffness) * 0.94 =
        a * s.stiffness * 0.94 by ring]
      exact hres
    · have hn := Step_velocityField_interior s cx (cy - 1)
        (by omega) (by omega) (by omega) (by omega)
      rw [hV, hz (cx - 1) (cy - 1) (by rintro ⟨e, -⟩; omega),
        hz (cx + 1) (cy - 1) (by rintro ⟨e, -⟩; omega),
        hz cx (cy - 1 - 1) (by rintro ⟨-, e⟩; omega),
        hz cx (cy - 1) (by rintro ⟨-, e⟩; omega),
        show cy - 1 + 1 = cy by ring, hc] at hn
      rw [hn, show (0 + (0 + 0 + 0 + a - 4 * 0) * s.stiffness) * 0.94 =
        a * s.stiffness * 0.94 by ring]
      exact hres
    · have hn := Step_velocityField_interior s cx (cy + 1)
        (by omega) (by omega) (by omega) (by omega)
      rw [hV, hz (cx - 1) (cy + 1) (by rintro ⟨e, -⟩; omega),
        hz (cx + 1) (cy + 1) (by rintro ⟨e, -⟩; omega),
        hz cx (cy + 1 + 1) (by rintro ⟨-, e⟩; omega),
        hz cx (cy + 1) (by rintro ⟨-, e⟩; omega),
        show cy + 1 - 1 = cy by ring, hc] at hn
      rw [hn, show (0 + (0 + 0 + a + 0 - 4 * 0) * s.stiffness) * 0.94 =
        a * s.stiffness * 0.94 by ring]
      exact hres
  · rw [Step_heightField_interior s cx cy (by omega) (by omega) (by omega) (by omega),
      Step_velocityField_interior s cx cy (by omega) (by omega) (by omega) (by omega)]

/-- A 7-by-7 state with a unit height spike at the central cell (3, 3),
zero velocities and the constructor configuration. -/
noncomputable def spikeSim : LiquidSim :=
  ⟨7, 7, 0.2, 0.985, fun p q => if p = 3 ∧ q = 3 then 1 else 0, fun _ _ => 0⟩

/-- Witness for claim C5: one Step on the concrete spike state gives the
right-hand neighbor (4, 3) of the spike a nonzero velocity. -/
theorem claim5_witness : (spikeSim.Step).velocityField 4 3 ≠ 0 := by
  have h := (claim5_theorem spikeSim 3 3 1
    (by show (if (3 : ℤ) = 3 ∧ (3 : ℤ) = 3 then (1 : ℝ) else 0) = 1; norm_num)
    (by
      intro u v hne
      show (if u = 3 ∧ v = 3 then (1 : ℝ) else 0) = 0
      exact if_neg hne)
    (fun u v => rfl) (by norm_num)
    (by norm_num [spikeSim]) (by decide) (by decide) (by decide) (by decide)).1.2.1
  rw [show (3 : ℤ) + 1 = 4 by norm_num] at h
  exact h

/-- Claim C6: when every cell of the (2*radius+1)-by-(2*radius+1) impulse
square falls outside the strict interior, AddImpulse returns the state
completely unchanged — height grid, velocity grid and configuration — and
the call is total, so no error or fault is signaled. -/
theorem claim6_theorem (s : LiquidSim) (x y : ℤ) (amount : ℝ) (radius : ℤ)
    (hout : ∀ i ∈ intRange (-radius) radius, ∀ j ∈ intRange (-radius) radius,
      ¬(0 < x + i ∧ x + i < s.width - 1 ∧ 0 < y + j ∧ y + j < s.height - 1)) :
    s.AddImpulse x y amount radius = s := by
  have hh : (s.AddImpulse x y amount radius).heightField = s.heightField := by
    funext p q
    apply AddImpulse_heightField_miss
    rintro ⟨⟨c1, c2, c3, c4⟩, hin⟩
    exact hout (p - x) (mem_intRange.mpr ⟨c1, c2⟩) (q - y) (mem_intRange.mpr ⟨c3, c4⟩)
      ⟨by omega, by omega, by omega, by omega⟩
  exact LiquidSim.ext rfl rfl rfl rfl hh rfl

/-- Witness for claim C6: an impulse far outside a 6-by-6 grid is a no-op. -/
theorem claim6_witness :
    (LiquidSim.init 6 6).AddImpulse (-10) (-10) 1 3 = LiquidSim.init 6 6 :=
  claim6_theorem (LiquidSim.init 6 6) (-10) (-10) 1 3 (by decide)

/-- Claim C7: RenderToImage is side-effect free on the simulation state —
the receiver comes back unchanged in the height grid, the velocity grid and
all configuration, only the image being written — and calling it any number
of times accumulates no state: n+1 consecutive calls still leave the
simulation state untouched and produce exactly the image of a single call. -/
theorem claim7_theorem (s : LiquidSim) (img : Image) (lightDir : Vector2) (n : ℕ) :
    (RenderToImage s img lightDir).1 = s ∧
      (renderN lightDir (n + 1) (s, img)).1 = s ∧
      (renderN lightDir (n + 1) (s, img)).2 = (RenderToImage s img lightDir).2 := by
  have key : ∀ m : ℕ, ∀ im : Image,
      (renderN lightDir (m + 1) (s, im)).1 = s ∧
        (renderN lightDir (m + 1) (s, im)).2 = (RenderToImage s im lightDir).2 := by
    intro m
    induction m with
    | zero => exact fun im => ⟨rfl, rfl⟩
    | succ k ih =>
      intro im
      have h1 := ih (RenderToImage s im lightDir).2
      exact ⟨h1.1, h1.2.trans (render_idempotent s im lightDir)⟩
  exact ⟨rfl, (key n img).1, (key n img).2⟩

/-- Claim C8: rendering is deterministic and a function of the grid
dimensions, the height field, the light direction and the pre-cleared image
contents alone: two calls agreeing on those inputs (velocity, stiffness and
damping may even differ) produce byte-identical RGBA output images. -/
theorem claim8_theorem (s1 s2 : LiquidSim) (img1 img2 : Image) (lightDir : Vector2)
    (hw : s1.width = s2.width) (hh : s1.height = s2.height)
    (hf : s1.heightField = s2.heightField) (hi : img1.data = img2.data) :
    (RenderToImage s1 img1 lightDir).2 = (RenderToImage s2 img2 lightDir).2 := by
  have hshade : ∀ u v : ℤ, shadePixel s1 lightDir u v = shadePixel s2 lightDir u v := by
    intro u v
    simp only [shadePixel, chromeVal, shadeIntensity, surfaceNormal, candidateNormal,
      gradX, gradY, hf]
  apply Image.ext
  funext p q
  by_cases hin : 1 ≤ p ∧ p ≤ s1.width - 2 ∧ 1 ≤ q ∧ q ≤ s1.height - 2
  · rw [renderData_interior s1 img1 lightDir p q hin.1 hin.2.1 hin.2.2.1 hin.2.2.2,
      renderData_interior s2 img2 lightDir p q hin.1 (hw ▸ hin.2.1) hin.2.2.1
        (hh ▸ hin.2.2.2)]
    exact hshade p q
  · rw [renderData_notin s1 img1 lightDir p q hin,
      renderData_notin s2 img2 lightDir p q (by rw [← hw, ← hh]; exact hin)]
    rw [hi]

/-- A flat 4-by-4 state with zero velocity everywhere. -/
noncomputable def renderProbeA : LiquidSim :=
  ⟨4, 4, 0.2, 0.985, fun _ _ => 0, fun _ _ => 0⟩

/-- A flat 4-by-4 state whose velocity grid is the constant 5 — the same
height field as renderProbeA but a different full simulation state. -/
noncomputable def renderProbeB : LiquidSim :=
  ⟨4, 4, 0.2, 0.985, fun _ _ => 0, fun _ _ => 5⟩

/-- An all-black, fully opaque image, as produced by the host's pre-clear. -/
noncomputable def blackImage : Image := ⟨fun _ _ => ⟨0, 0, 0, 255⟩⟩

/-- Witness for claim C8: equal height fields and pre-cleared images give
byte-identical renders, even though the two states' velocity grids differ. -/
theorem claim8_witness :
    (RenderToImage renderProbeA blackImage ⟨0.4, 0.6⟩).2 =
      (RenderToImage renderProbeB blackImage ⟨0.4, 0.6⟩).2 :=
  claim8_theorem renderProbeA renderProbeB blackImage blackImage ⟨0.4, 0.6⟩
    rfl rfl rfl rfl

/-- Claim C9: the candidate normal's z-component is the constant 1 before
normalization, so its length is at least 1 (hence strictly positive) for
every height field; the zero-length fallback branch that would leave the
vector unnormalized is unreachable, and the normalization division is never
a division by zero. -/
theorem claim9_theorem (s : LiquidSim) (x y : ℤ) :
    (candidateNormal s x y).z = 1 ∧
    1 ≤ vecLen (candidateNormal s x y) ∧
    0 < vecLen (candidateNormal s x y) ∧
    normalizeGuarded (candidateNormal s x y) =
      ⟨(candidateNormal s x y).x / vecLen (candidateNormal s x y),
        (candidateNormal s x y).y / vecLen (candidateNormal s x y),
        (candidateNormal s x y).z / vecLen (candidateNormal s x y)⟩ := by
  have hlen : vecLen (candidateNormal s x y) =
      Real.sqrt (gradX s x y * gradX s x y + gradY s x y * gradY s x y + 1) := by
    unfold vecLen candidateNormal
    exact congrArg Real.sqrt (by dsimp only; ring)
  have h1 : 1 ≤ vecLen (candidateNormal s x y) := by
    rw [hlen, Real.one_le_sqrt]
    nlinarith [mul_self_nonneg (gradX s x y), mul_self_nonneg (gradY s x y)]
  have h0 : 0 < vecLen (candidateNormal s x y) := lt_of_lt_of_le one_pos h1
  refine ⟨rfl, h1, h0, ?_⟩
  unfold normalizeGuarded
  rw [if_pos h0]

theorem rayClamp_mem (v lo hi : ℝ) (h : lo ≤ hi) :
    lo ≤ rayClamp v lo hi ∧ rayClamp v lo hi ≤ hi := by
  simp only [rayClamp]
  split_ifs <;> constructor <;> linarith

theorem env_channels_le (n : Vector3) :
    (SampleCubemap n).r ≤ 255 ∧ (SampleCubemap n).g ≤ 255 ∧ (SampleCubemap n).b ≤ 255 := by
  simp only [SampleCubemap]
  split_ifs <;>
    norm_num [envRight, envLeft, envUp, envDown, envFront, envBack]

theorem chromeVal_le (s : LiquidSim) (lightDir : Vector2) (x y : ℤ) :
    chromeVal s lightDir x y ≤ 255 := by
  unfold chromeVal ucharCast
  have h := Nat.mod_lt
    ((⌊Real.rpow (shadeIntensity s lightDir x y) 0.6 * 255⌋).toNat)
    (show 0 < 256 by norm_num)
  omega

/-- Claim C10: for every pixel, each composited channel value
chrome * 0.4 + env * 0.6 lies in [0, 255] before the cast to an 8-bit
channel, so the unsigned-char conversion of the blended red, green and blue
values never wraps or overflows: the stored channel equals the plain floor
of the blended value, with the mod-256 reduction having no effect. -/
theorem claim10_theorem (s : LiquidSim) (lightDir : Vector2) (x y : ℤ) :
    (0 ≤ (chromeVal s lightDir x y : ℝ) * 0.4 +
        ((SampleCubemap (surfaceNormal s x y)).r : ℝ) * 0.6 ∧
      (chromeVal s lightDir x y : ℝ) * 0.4 +
        ((SampleCubemap (surfaceNormal s x y)).r : ℝ) * 0.6 ≤ 255 ∧
      (shadePixel s lightDir x y).r =
        (⌊(chromeVal s lightDir x y : ℝ) * 0.4 +
            ((SampleCubemap (surfaceNormal s x y)).r : ℝ) * 0.6⌋).toNat ∧
      (shadePixel s lightDir x y).r ≤ 255) ∧
    (0 ≤ (chromeVal s lightDir x y : ℝ) * 0.4 +
        ((SampleCubemap (surfaceNormal s x y)).g : ℝ) * 0.6 ∧
      (chromeVal s lightDir x y : ℝ) * 0.4 +
        ((SampleCubemap (surfaceNormal s x y)).g : ℝ) * 0.6 ≤ 255 ∧
      (shadePixel s lightDir x y).g =
        (⌊(chromeVal s lightDir x y : ℝ) * 0.4 +
            ((SampleCubemap (surfaceNormal s x y)).g : ℝ) * 0.6⌋).toNat ∧
      (shadePixel s lightDir x y).g ≤ 255) ∧
    (0 ≤ (chromeVal s lightDir x y : ℝ) * 0.4 +
        ((SampleCubemap (surfaceNormal s x y)).b : ℝ) * 0.6 ∧
      (chromeVal s lightDir x y : ℝ) * 0.4 +
        ((SampleCubemap (surfaceNormal s x y)).b : ℝ) * 0.6 ≤ 255 ∧
      (shadePixel s lightDir x y).b =
        (⌊(chromeVal s lightDir x y : ℝ) * 0.4 +
            ((SampleCubemap (surfaceNormal s x y)).b : ℝ) * 0.6⌋).toNat ∧
      (shadePixel s lightDir x y).b ≤ 255) := by
  have key : ∀ e : ℕ, e ≤ 255 →
      0 ≤ (chromeVal s lightDir x y : ℝ) * 0.4 + (e : ℝ) * 0.6 ∧
      (chromeVal s lightDir x y : ℝ) * 0.4 + (e : ℝ) * 0.6 ≤ 255 ∧
      ucharCast ((chromeVal s lightDir x y : ℝ) * 0.4 + (e : ℝ) * 0.6) =
        (⌊(chromeVal s lightDir x y : ℝ) * 0.4 + (e : ℝ) * 0.6⌋).toNat ∧
      ucharCast ((chromeVal s lightDir x y : ℝ) * 0.4 + (e : ℝ) * 0.6) ≤ 255 := by
    intro e he
    have hc := chromeVal_le s lightDir x y
    have hcr : (chromeVal s lightDir x y : ℝ) ≤ 255 := by exact_mod_cast hc
    have her : (e : ℝ) ≤ 255 := by exact_mod_cast he
    have hnn : 0 ≤ (chromeVal s lightDir x y : ℝ) * 0.4 + (e : ℝ) * 0.6 := by positivity
    have hub : (chromeVal s lightDir x y : ℝ) * 0.4 + (e : ℝ) * 0.6 ≤ 255 := by linarith
    have hfl : ⌊(chromeVal s lightDir x y : ℝ) * 0.4 + (e : ℝ) * 0.6⌋ ≤ 255 := by
      have h2 := Int.floor_le_floor hub
      have h3 : ⌊(255 : ℝ)⌋ = 255 := by
        rw [show (255 : ℝ) = ((255 : ℤ) : ℝ) by norm_num, Int.floor_intCast]
      omega
    refine ⟨hnn, hub, ?_, ?_⟩
    · unfold ucharCast
      exact Nat.mod_eq_of_lt (by omega)
    · unfold ucharCast
      rw [Nat.mod_eq_of_lt (by omega)]
      omega
  have henv := env_channels_le (surfaceNormal s x y)
  refine ⟨?_, ?_, ?_⟩
  · have h := key ((SampleCubemap (surfaceNormal s x y)).r) henv.1
    exact ⟨h.1, h.2.1, h.2.2.1, h.2.2.2⟩
  · have h := key ((SampleCubemap (surfaceNormal s x y)).g) henv.2.1
    exact ⟨h.1, h.2.1, h.2.2.1, h.2.2.2⟩
  · have h := key ((SampleCubemap (surfaceNormal s x y)).b) henv.2.2
    exact ⟨h.1, h.2.1, h.2.2.1, h.2.2.2⟩

end LiquidMetal
